import Mathlib

/-!
Verification development for the gantry/camera capture program
(source file Gantry_setup_2.2.py).

The program is embedded shallowly:

* numeric entry fields and Python float arithmetic are modelled over the
  rationals (exact arithmetic); Python int(...) truncation toward zero is
  pyInt, math.ceil is the integer ceiling;
* the imaging worker thread is modelled as a pure function from its inputs
  (grid parameters, safety limits, and the points at which the shared
  stop_imaging flag or a hardware exception intervenes) to the list of
  hardware commands it issues together with its final reported state;
* position reports that the code polls (replies to the RP command) are
  supplied as explicit lists of strings.
-/

/-! ## Fixed configuration constants (lines 62-86 of the source) -/

/-- Camera sensor width in pixels, self.camera_width_px = 9504. -/
def camera_width_px : ℚ := 9504

/-- Camera sensor height in pixels, self.camera_height_px = 6336. -/
def camera_height_px : ℚ := 6336

/-- Encoder steps per mm on X, self.x_scale = 2500. -/
def x_scale : ℚ := 2500

/-- Encoder steps per mm on Y, self.y_scale = 6250. -/
def y_scale : ℚ := 6250

/-- Safety limit for X in encoder counts, self.x_limit = 1660768. -/
def x_limit : ℤ := 1660768

/-- Safety limit for Y in encoder counts, self.y_limit = 3084965. -/
def y_limit : ℤ := 3084965

/-! ## Grid planner, calculate_grid (lines 1065-1121) -/

/-- Python int(q) on a rational: truncation toward zero. -/
def pyInt (q : ℚ) : ℤ := if 0 ≤ q then ⌊q⌋ else ⌈q⌉

/-- Result record of calculate_grid: the attributes the method stores. -/
structure GridPlan where
  x_dimension : ℤ
  y_dimension : ℤ
  x_step_mm : ℚ
  y_step_mm : ℚ
  x_steps : ℤ
  y_steps : ℤ
  x_inc : ℤ
  y_inc : ℤ
deriving DecidableEq, Repr

/-- Shallow embedding of calculate_grid.  Inputs are the four entry fields
(overlap as a percentage, field-of-view width and both area dimensions in mm)
already parsed to numbers (the ValueError branch for unparsable text is
outside this model).  The division x_dimension_mm / x_step_mm is performed
first in the source (line 1097); a zero step raises ZeroDivisionError, which
is not caught by the except ValueError handler, modelled here as none.
The safety-limit warning dialog (lines 1079-1086) only shows a message box and
changes no computed attribute, so it does not appear in the result. -/
def calculate_grid (overlap_pct fov_width_mm x_dimension_mm y_dimension_mm : ℚ) :
    Option GridPlan :=
  let overlap : ℚ := overlap_pct / 100
  let x_dimension : ℤ := pyInt (x_dimension_mm * x_scale)
  let y_dimension : ℤ := pyInt (y_dimension_mm * y_scale)
  let aspect_ratio : ℚ := camera_height_px / camera_width_px
  let fov_height_mm : ℚ := fov_width_mm * aspect_ratio
  let x_step_mm : ℚ := fov_width_mm * (1 - overlap)
  let y_step_mm : ℚ := fov_height_mm * (1 - overlap)
  if x_step_mm = 0 then none
  else if y_step_mm = 0 then none
  else
    some ⟨x_dimension, y_dimension, x_step_mm, y_step_mm,
      ⌈x_dimension_mm / x_step_mm⌉ + 1,
      ⌈y_dimension_mm / y_step_mm⌉ + 1,
      pyInt (x_step_mm * x_scale),
      pyInt (y_step_mm * y_scale)⟩

/-! ## Snake traversal of the imaging grid, _imaging_thread (lines 1236-1251)

The nested loop carries aim_x across rows: row 0 starts at start_x, every
later row starts where the previous row ended and aim_y grows by y_inc once
per row; within a row, iteration x = 0 keeps the carried aim_x and every
later iteration adds x_inc on even rows and subtracts it on odd rows. -/

/-- Inner loop iterations with x at least 1: each remaining iteration first
updates the carried aim and then yields the target; also returns the carried
aim after the row. -/
def rowRest (aim y step : ℤ) : Nat → List (ℤ × ℤ) × ℤ
  | 0 => ([], aim)
  | k + 1 =>
    let a := aim + step
    let r := rowRest a y step k
    ((a, y) :: r.1, r.2)

/-- One full row of n inner-loop iterations: iteration x = 0 yields the
carried aim unchanged, the rest behave as rowRest. -/
def rowRun (aim y step : ℤ) (n : Nat) : List (ℤ × ℤ) × ℤ :=
  match n with
  | 0 => ([], aim)
  | k + 1 =>
    let r := rowRest aim y step k
    ((aim, y) :: r.1, r.2)

/-- Outer loop over the remaining rows; r is the row index y of the source
loop, and the carried aim_x is threaded from row to row. -/
def snakeAux (xinc yinc : ℤ) (nx : Nat) : Nat → ℤ → ℤ → Nat → List (ℤ × ℤ)
  | 0, _, _, _ => []
  | k + 1, ax, ay, r =>
    let step := if r % 2 = 0 then xinc else -xinc
    let row := rowRun ax ay step nx
    row.1 ++ snakeAux xinc yinc nx k row.2 (ay + yinc) (r + 1)

/-- Sequence of targets (aim_x, aim_y) generated by the nested loops of
_imaging_thread for a grid of nx columns (x_steps) and ny rows (y_steps). -/
def snakePath (sx sy xinc yinc : ℤ) (nx ny : Nat) : List (ℤ × ℤ) :=
  snakeAux xinc yinc nx ny sx sy 0

/-- Closed-form target of grid cell (column i, row j): the claimed
boustrophedon position, stated for comparison with snakePath. -/
def cellTarget (sx sy xinc yinc : ℤ) (nx : Nat) (j i : Nat) : ℤ × ℤ :=
  (if j % 2 = 0 then sx + i * xinc else sx + ((nx - 1 : ℕ) : ℤ) * xinc - i * xinc,
   sy + j * yinc)

/-- Closed-form row-major list of all grid-cell targets, stated for
comparison with snakePath. -/
def snakeSpec (sx sy xinc yinc : ℤ) (nx ny : Nat) : List (ℤ × ℤ) :=
  (List.range ny).flatMap fun j =>
    (List.range nx).map fun i => cellTarget sx sy xinc yinc nx j i

/-! ## Event-level model of the imaging worker thread (lines 1200-1326) -/

/-- Hardware commands the sequence loop issues: an absolute move
(GCommand PA x, y followed by BG) or a two-photo capture
(take_both_photos). -/
inductive GEvent where
  | move (x y : ℤ)
  | capture
deriving DecidableEq, Repr

/-- Safety check of line 1257: aim_x > x_limit or aim_y > y_limit. -/
def exceedsLimits (xlim ylim : ℤ) (c : ℤ × ℤ) : Bool :=
  decide (c.1 > xlim) || decide (c.2 > ylim)

/-- Main loop of _imaging_thread over the generated targets, with the shared
stop_imaging flag supplied by the environment.  Reads of the flag are
numbered in execution order and the flag reads true from read number t on
(the flag is only ever set, never cleared, while the thread runs; t beyond
every read models a run that is never cancelled).  Each processed target
reads the flag at line 1253 (read ctr), then applies the safety check of
line 1257 (which itself sets the flag and breaks on violation), then issues
the move, then reads the flag again after the arrival poll (lines 1272/1279,
read ctr+1, the arrival poll itself is assumed to succeed; consecutive reads
with no intervening command are merged), and only then captures.  The break
at line 1307 re-reads the flag already read at 1253/1279 and is subsumed by
them.  Returns the issued events and the final value of stop_imaging as read
by the status report of lines 1311-1314. -/
def runStop (xlim ylim : ℤ) (t : Nat) : List (ℤ × ℤ) → Nat → List GEvent × Bool
  | [], ctr => ([], decide (t ≤ ctr))
  | c :: rest, ctr =>
    if t ≤ ctr then ([], true)
    else if exceedsLimits xlim ylim c then ([], true)
    else if t ≤ ctr + 1 then ([GEvent.move c.1 c.2], true)
    else
      let r := runStop xlim ylim t rest (ctr + 2)
      (GEvent.move c.1 c.2 :: GEvent.capture :: r.1, r.2)

/-- Final state reported by the imaging thread. -/
structure ThreadOutcome where
  events : List GEvent
  status : String
  is_imaging : Bool
deriving DecidableEq, Repr

/-- Whole _imaging_thread run under a stop flag that reads true from flag
read t on.  The move to the start position (line 1211) is issued before any
flag read; the wait loop of lines 1215-1229 performs flag read 0 and returns
early with the stopped status when it reads true; otherwise the main loop
performs reads 1, 2, ... as in runStop.  The final status is the stopped or
complete message of lines 1311-1314; is_imaging is cleared either way. -/
def imagingThread (sx sy xinc yinc : ℤ) (nx ny : Nat) (xlim ylim : ℤ)
    (t : Nat) : ThreadOutcome :=
  if t = 0 then ⟨[GEvent.move sx sy], "Imaging sequence stopped", false⟩
  else
    let r := runStop xlim ylim t (snakePath sx sy xinc yinc nx ny) 1
    ⟨GEvent.move sx sy :: r.1,
     if r.2 then "Imaging sequence stopped"
     else "Imaging sequence complete - "
       ++ toString (r.1.countP fun e => decide (e = GEvent.capture))
       ++ " positions captured",
     false⟩

/-- How a run of the main loop can end when hardware calls may raise. -/
inductive RunResult where
  | raised
  | stopped
  | completed
deriving DecidableEq, Repr

/-- Main loop of _imaging_thread when the hardware calls themselves may
fail: calls (move commands and capture commands) are numbered in execution
order, k is the number of the next call, and call number failAt raises an
exception; a failAt beyond every call models a run with no failure.  The
stop flag is never set externally here.  A call that raises produces no
event and control transfers to the except handler of line 1321. -/
def runExc (xlim ylim : ℤ) (failAt : Nat) : List (ℤ × ℤ) → Nat → List GEvent × RunResult
  | [], _ => ([], RunResult.completed)
  | c :: rest, k =>
    if exceedsLimits xlim ylim c then ([], RunResult.stopped)
    else if k = failAt then ([], RunResult.raised)
    else if k + 1 = failAt then ([GEvent.move c.1 c.2], RunResult.raised)
    else
      let r := runExc xlim ylim failAt rest (k + 2)
      (GEvent.move c.1 c.2 :: GEvent.capture :: r.1, r.2)

/-- Whole _imaging_thread run when hardware call number failAt raises an
exception whose text is msg.  Call 0 is the move to the start position
(line 1211); the main loop then performs calls 1, 2, ...  The except handler
of lines 1321-1326 catches every exception, sets the status to the error
message built from the exception text and clears is_imaging; it contains no
retry, so the events are exactly those issued before the failing call. -/
def imagingThreadExc (sx sy xinc yinc : ℤ) (nx ny : Nat) (xlim ylim : ℤ)
    (failAt : Nat) (msg : String) : ThreadOutcome :=
  if failAt = 0 then ⟨[], "Imaging error: " ++ msg, false⟩
  else
    let r := runExc xlim ylim failAt (snakePath sx sy xinc yinc nx ny) 1
    match r.2 with
    | RunResult.raised => ⟨GEvent.move sx sy :: r.1, "Imaging error: " ++ msg, false⟩
    | RunResult.stopped => ⟨GEvent.move sx sy :: r.1, "Imaging sequence stopped", false⟩
    | RunResult.completed =>
      ⟨GEvent.move sx sy :: r.1,
       "Imaging sequence complete - "
         ++ toString (r.1.countP fun e => decide (e = GEvent.capture))
         ++ " positions captured",
       false⟩

/-! ## Arrival polling, lines 1271-1277 -/

/-- Target string the poll compares against: the Python f-string
built from aim_x and aim_y with a comma and one space between them. -/
def formatPosition (x y : ℤ) : String :=
  toString x ++ ", " ++ toString y

/-- Comparison of line 1274: the reply to RP is compared to the formatted
target by plain string equality. -/
def pollMatch (pos : String) (x y : ℤ) : Bool :=
  pos == formatPosition x y

/-- Poll loop of lines 1271-1277: while not done and the stop flag is
unset, read a position report and compare; the successive replies to RP
are supplied as a list (an empty remainder means the loop was still
spinning).  Returns is_done at exit. -/
def pollWait (x y : ℤ) (stop : Bool) : List String → Bool
  | [] => false
  | pos :: rest =>
    if stop then false
    else if pollMatch pos x y then true
    else pollWait x y stop rest

/-! ## Manual motion commands (lines 966-1063) -/

/-- Shallow embedding of move_gantry: computes the absolute target from the
current position and the requested change, refuses it when it exceeds a
safety limit (line 977), and otherwise issues PA new_x, new_y;BG.  Returns
the target of the issued command, or none when the move is blocked. -/
def move_gantry (current_x current_y x_change y_change xlim ylim : ℤ) :
    Option (ℤ × ℤ) :=
  let new_x := current_x + x_change
  let new_y := current_y + y_change
  if new_x > xlim ∨ new_y > ylim then none
  else some (new_x, new_y)

/-- Shallow embedding of goto_home: issues PA 0, 0;BG unconditionally
(line 1010), with no comparison against the safety limits. -/
def goto_home : Option (ℤ × ℤ) := some (0, 0)

/-- Shallow embedding of return_to_start_position with a start position
set: issues PA start_x, start_y;BG unconditionally (line 1059), with no
comparison against the safety limits. -/
def return_to_start_position (start_x start_y : ℤ) : Option (ℤ × ℤ) :=
  some (start_x, start_y)

/-! ## Theorems about the grid planner (claims C1, C5, C6) -/

/-- Helper: the planner succeeds exactly when both per-axis steps are
nonzero, and then its fields are the source formulas. -/
theorem calculate_grid_eq (op w ax ay : ℚ)
    (hx : w * (1 - op / 100) ≠ 0)
    (hy : w * (camera_height_px / camera_width_px) * (1 - op / 100) ≠ 0) :
    calculate_grid op w ax ay =
      some ⟨pyInt (ax * x_scale), pyInt (ay * y_scale),
        w * (1 - op / 100), w * (camera_height_px / camera_width_px) * (1 - op / 100),
        ⌈ax / (w * (1 - op / 100))⌉ + 1,
        ⌈ay / (w * (camera_height_px / camera_width_px) * (1 - op / 100))⌉ + 1,
        pyInt (w * (1 - op / 100) * x_scale),
        pyInt (w * (camera_height_px / camera_width_px) * (1 - op / 100) * y_scale)⟩ := by
  unfold calculate_grid
  simp only [if_neg hx, mul_comm, mul_assoc, mul_left_comm] at *
  simp only [if_neg hy]

/-- C1: for an overlap fraction o < 1 given to the planner as the percentage
100·o, the per-axis step distances are fov·(1-o) for X and
fov·(6336/9504)·(1-o) for Y, and the step counts are ceil(area/step)+1 on
each axis; at overlap 20 percent, fov width 268.29 mm and a 500 mm × 500 mm
area the planner returns 4 columns, 5 rows and encoder increments
536580 and 894300. -/
theorem grid_planner_formula_and_instance :
    (∀ o w ax ay : ℚ, o < 1 → 0 < w →
      calculate_grid (100 * o) w ax ay =
        some ⟨pyInt (ax * 2500), pyInt (ay * 6250),
          w * (1 - o), w * (6336 / 9504) * (1 - o),
          ⌈ax / (w * (1 - o))⌉ + 1,
          ⌈ay / (w * (6336 / 9504) * (1 - o))⌉ + 1,
          pyInt (w * (1 - o) * 2500),
          pyInt (w * (6336 / 9504) * (1 - o) * 6250)⟩) ∧
    calculate_grid 20 (26829 / 100) 500 500 =
      some ⟨1250000, 3125000, 26829 / 125, 17886 / 125, 4, 5, 536580, 894300⟩ := by
  constructor
  · intro o w ax ay ho hw
    have h1 : (1 : ℚ) - 100 * o / 100 = 1 - o := by ring
    have hstep : w * (1 - o) ≠ 0 :=
      mul_ne_zero (ne_of_gt hw) (by linarith)
    have hx : w * (1 - 100 * o / 100) ≠ 0 := by rw [h1]; exact hstep
    have hy : w * (camera_height_px / camera_width_px) * (1 - 100 * o / 100) ≠ 0 := by
      rw [h1]
      unfold camera_height_px camera_width_px
      exact mul_ne_zero (mul_ne_zero (ne_of_gt hw) (by norm_num)) (by linarith)
    rw [calculate_grid_eq _ _ _ _ hx hy]
    unfold camera_height_px camera_width_px x_scale y_scale
    rw [h1]
  · have hx : (26829 / 100 : ℚ) * (1 - 20 / 100) ≠ 0 := by norm_num
    have hy : (26829 / 100 : ℚ) * (camera_height_px / camera_width_px) * (1 - 20 / 100) ≠ 0 := by
      unfold camera_height_px camera_width_px; norm_num
    rw [calculate_grid_eq _ _ _ _ hx hy]
    unfold camera_height_px camera_width_px x_scale y_scale
    have e1 : (26829 / 100 : ℚ) * (1 - 20 / 100) = 26829 / 125 := by norm_num
    have e2 : (26829 / 100 : ℚ) * (6336 / 9504) * (1 - 20 / 100) = 17886 / 125 := by
      norm_num
    rw [e1, e2]
    have c1 : ⌈(500 : ℚ) / (26829 / 125)⌉ = 3 := by
      rw [Int.ceil_eq_iff]; constructor <;> norm_num
    have c2 : ⌈(500 : ℚ) / (17886 / 125)⌉ = 4 := by
      rw [Int.ceil_eq_iff]; constructor <;> norm_num
    rw [c1, c2]
    unfold pyInt
    norm_num

/-- Witness for C1: the universally quantified part applied at the concrete
instance overlap fraction 1/5, fov 268.29, area 500 × 500. -/
theorem grid_planner_formula_witness :
    calculate_grid (100 * (1 / 5)) (26829 / 100) 500 500 =
      some ⟨pyInt (500 * 2500), pyInt (500 * 6250),
        26829 / 100 * (1 - 1 / 5), 26829 / 100 * (6336 / 9504) * (1 - 1 / 5),
        ⌈(500 : ℚ) / (26829 / 100 * (1 - 1 / 5))⌉ + 1,
        ⌈(500 : ℚ) / (26829 / 100 * (6336 / 9504) * (1 - 1 / 5))⌉ + 1,
        pyInt (26829 / 100 * (1 - 1 / 5) * 2500),
        pyInt (26829 / 100 * (6336 / 9504) * (1 - 1 / 5) * 6250)⟩ :=
  grid_planner_formula_and_instance.1 (1 / 5) (26829 / 100) 500 500
    (by norm_num) (by norm_num)

/-- C5 counterexample: at overlap 200 percent (overlap fraction 2), fov
width 268.29 and a 500 mm × 500 mm area the planner completes and returns a
column count of 0, which is not at least 1. -/
theorem grid_counts_not_positive_cex :
    Option.map GridPlan.x_steps (calculate_grid 200 (26829 / 100) 500 500) =
      some 0 ∧ (0 : ℤ) < 1 := by
  refine ⟨?_, by norm_num⟩
  have hx : (26829 / 100 : ℚ) * (1 - 200 / 100) ≠ 0 := by norm_num
  have hy : (26829 / 100 : ℚ) * (camera_height_px / camera_width_px) * (1 - 200 / 100) ≠ 0 := by
    unfold camera_height_px camera_width_px; norm_num
  rw [calculate_grid_eq _ _ _ _ hx hy]
  have c1 : ⌈(500 : ℚ) / (26829 / 100 * (1 - 200 / 100))⌉ = -1 := by
    rw [Int.ceil_eq_iff]; constructor <;> norm_num
  simp [c1]

/-- C5 amended: for every overlap fraction strictly below 1 (percentage
below 100), positive field-of-view width and positive area dimensions, the
planner returns a plan whose row and column counts are each at least 1. -/
theorem grid_counts_positive_for_overlap_lt_one
    (op w ax ay : ℚ) (ho : op < 100) (hw : 0 < w) (hax : 0 < ax) (hay : 0 < ay) :
    ∃ p, calculate_grid op w ax ay = some p ∧ 1 ≤ p.x_steps ∧ 1 ≤ p.y_steps := by
  have hfrac : (0 : ℚ) < 1 - op / 100 := by linarith
  have hxs : (0 : ℚ) < w * (1 - op / 100) := mul_pos hw hfrac
  have hys : (0 : ℚ) < w * (camera_height_px / camera_width_px) * (1 - op / 100) := by
    unfold camera_height_px camera_width_px
    have : (0 : ℚ) < (6336 : ℚ) / 9504 := by norm_num
    exact mul_pos (mul_pos hw this) hfrac
  rw [calculate_grid_eq op w ax ay (ne_of_gt hxs) (ne_of_gt hys)]
  refine ⟨_, rfl, ?_, ?_⟩
  · show (1 : ℤ) ≤ ⌈ax / (w * (1 - op / 100))⌉ + 1
    have h1 : (0 : ℚ) < ax / (w * (1 - op / 100)) := div_pos hax hxs
    have h2 : 0 < ⌈ax / (w * (1 - op / 100))⌉ := Int.ceil_pos.mpr h1
    omega
  · show (1 : ℤ) ≤ ⌈ay / (w * (camera_height_px / camera_width_px) * (1 - op / 100))⌉ + 1
    have h1 : (0 : ℚ) < ay / (w * (camera_height_px / camera_width_px) * (1 - op / 100)) :=
      div_pos hay hys
    have h2 : 0 < ⌈ay / (w * (camera_height_px / camera_width_px) * (1 - op / 100))⌉ :=
      Int.ceil_pos.mpr h1
    omega

/-- Witness for the amended C5 at overlap 20 percent, fov 268.29 and a
500 mm × 500 mm area. -/
theorem grid_counts_positive_witness :
    ((20 : ℚ) < 100 ∧ (0 : ℚ) < 26829 / 100 ∧ (0 : ℚ) < 500) ∧
    ∃ p, calculate_grid 20 (26829 / 100) 500 500 = some p ∧
      1 ≤ p.x_steps ∧ 1 ≤ p.y_steps :=
  ⟨⟨by norm_num, by norm_num, by norm_num⟩,
    grid_counts_positive_for_overlap_lt_one 20 (26829 / 100) 500 500
      (by norm_num) (by norm_num) (by norm_num) (by norm_num)⟩

/-- C6 counterexample: the overlap fraction 2 (entry 200 percent) is at
least 1, yet the planner performs no division by zero there: it completes
and returns a plan. -/
theorem overlap_two_no_divide_by_zero_cex :
    (1 : ℚ) ≤ 200 / 100 ∧
    (calculate_grid 200 (26829 / 100) 500 500).isSome = true := by
  refine ⟨by norm_num, ?_⟩
  have hx : (26829 / 100 : ℚ) * (1 - 200 / 100) ≠ 0 := by norm_num
  have hy : (26829 / 100 : ℚ) * (camera_height_px / camera_width_px) * (1 - 200 / 100) ≠ 0 := by
    unfold camera_height_px camera_width_px; norm_num
  rw [calculate_grid_eq _ _ _ _ hx hy]
  rfl

/-- C6 amended: with a positive field-of-view width, the unguarded
ZeroDivisionError occurs exactly when the overlap is 100 percent (fraction
exactly 1, making the effective step zero); for every other overlap the
computation completes without error. -/
theorem divide_by_zero_iff_overlap_eq_one
    (op w ax ay : ℚ) (hw : 0 < w) :
    calculate_grid op w ax ay = none ↔ op = 100 := by
  constructor
  · intro h
    by_contra hop
    have hfrac : (1 : ℚ) - op / 100 ≠ 0 := by
      intro h0
      apply hop
      have : op / 100 = 1 := by linarith
      field_simp at this
      linarith
    have hx : w * (1 - op / 100) ≠ 0 := mul_ne_zero (ne_of_gt hw) hfrac
    have hy : w * (camera_height_px / camera_width_px) * (1 - op / 100) ≠ 0 := by
      unfold camera_height_px camera_width_px
      exact mul_ne_zero (mul_ne_zero (ne_of_gt hw) (by norm_num)) hfrac
    rw [calculate_grid_eq op w ax ay hx hy] at h
    exact Option.noConfusion h
  · intro h
    subst h
    unfold calculate_grid
    norm_num

/-- Witness for the amended C6: at overlap exactly 100 percent the planner
raises (returns none). -/
theorem divide_by_zero_witness :
    (0 : ℚ) < 1 ∧ calculate_grid 100 1 1 1 = none :=
  ⟨by norm_num, (divide_by_zero_iff_overlap_eq_one 100 1 1 1 (by norm_num)).mpr rfl⟩

/-! ## Theorems about the manual motion commands (claims C4, C10) -/

/-- C4 counterexample: with the start position at 1660769 encoder counts,
one count beyond the configured x limit 1660768, return_to_start_position
still issues the absolute move command for that target: no comparison
against the safety boundary precedes this commanded move. -/
theorem unchecked_return_to_start_cex :
    return_to_start_position (x_limit + 1) 0 = some (x_limit + 1, 0) ∧
    x_limit < x_limit + 1 :=
  ⟨rfl, by omega⟩

/-- C4 amended: only move_gantry compares its target against the x and y
safety limits before issuing the positioning command; goto_home and
return_to_start_position issue their absolute positioning commands
unconditionally, with no limit check (goto_home always targets the
origin). -/
theorem move_commands_limit_checking :
    (∀ cx cy dx dy xl yl : ℤ, ∀ p : ℤ × ℤ,
      move_gantry cx cy dx dy xl yl = some p → p.1 ≤ xl ∧ p.2 ≤ yl) ∧
    (∀ sx sy : ℤ, return_to_start_position sx sy = some (sx, sy)) ∧
    goto_home = some (0, 0) := by
  refine ⟨?_, fun _ _ => rfl, rfl⟩
  intro cx cy dx dy xl yl p h
  by_cases hc : cx + dx > xl ∨ cy + dy > yl
  · have hnone : move_gantry cx cy dx dy xl yl = none := by
      unfold move_gantry; rw [if_pos hc]
    rw [hnone] at h
    exact Option.noConfusion h
  · have hsome : move_gantry cx cy dx dy xl yl = some (cx + dx, cy + dy) := by
      unfold move_gantry; rw [if_neg hc]
    rw [hsome] at h
    cases h
    push_neg at hc
    exact hc

/-- Witness for the amended C4: a concrete issued move_gantry command whose
target the theorem bounds by the limits. -/
theorem move_commands_limit_checking_witness :
    move_gantry 0 0 0 0 x_limit y_limit = some (0, 0) ∧
    ((0 : ℤ) ≤ x_limit ∧ (0 : ℤ) ≤ y_limit) :=
  ⟨by decide, move_commands_limit_checking.1 0 0 0 0 x_limit y_limit (0, 0) (by decide)⟩

/-- C10: the safety checks bound positions only from above.  Whenever the
target satisfies x ≤ x_limit and y ≤ y_limit, move_gantry issues the move
and the imaging sequencer issues the move and captures, even for negative
coordinates: no lower bound is enforced. -/
theorem no_lower_bound_on_moves :
    (∀ cx cy dx dy xl yl : ℤ, cx + dx ≤ xl → cy + dy ≤ yl →
      move_gantry cx cy dx dy xl yl = some (cx + dx, cy + dy)) ∧
    (∀ xl yl : ℤ, ∀ c : ℤ × ℤ, c.1 ≤ xl → c.2 ≤ yl →
      (runStop xl yl 5 [c] 1).1 = [GEvent.move c.1 c.2, GEvent.capture]) := by
  constructor
  · intro cx cy dx dy xl yl h1 h2
    unfold move_gantry
    rw [if_neg]
    push_neg
    exact ⟨h1, h2⟩
  · intro xl yl c h1 h2
    have hex : exceedsLimits xl yl c = false := by
      unfold exceedsLimits
      simp only [Bool.or_eq_false_iff, decide_eq_false_iff_not, not_lt]
      exact ⟨h1, h2⟩
    unfold runStop
    rw [if_neg (by omega), if_neg (by simp [hex]), if_neg (by omega)]
    rfl

/-- Witness for C10 at the concrete negative targets (-5, -7) and (-3, -4),
both below the configured limits. -/
theorem no_lower_bound_on_moves_witness :
    ((0 : ℤ) + -5 ≤ x_limit ∧ (0 : ℤ) + -7 ≤ y_limit ∧
      ((-3, -4) : ℤ × ℤ).1 ≤ x_limit ∧ ((-3, -4) : ℤ × ℤ).2 ≤ y_limit) ∧
    move_gantry 0 0 (-5) (-7) x_limit y_limit = some (0 + -5, 0 + -7) ∧
    (runStop x_limit y_limit 5 [(-3, -4)] 1).1 =
      [GEvent.move ((-3, -4) : ℤ × ℤ).1 ((-3, -4) : ℤ × ℤ).2, GEvent.capture] :=
  ⟨⟨by decide, by decide, by decide, by decide⟩,
    no_lower_bound_on_moves.1 0 0 (-5) (-7) x_limit y_limit (by decide) (by decide),
    no_lower_bound_on_moves.2 x_limit y_limit (-3, -4) (by decide) (by decide)⟩

/-! ## Theorems about the arrival poll (claim C7) -/

/-- C7: the poll of lines 1271-1277 proceeds on plain string equality.  The
per-report comparison succeeds exactly when the reported string equals the
formatted target; the loop reaches is_done = true exactly when the stop flag
is unset and some report is string-equal to the target; with the stop flag
set it exits without is_done; the target for (0, 0) is the literal "0, 0",
and the numerically identical report "00, 0" does not match it: no
tolerance-based or numeric comparison is involved. -/
theorem poll_exact_string_equality :
    (∀ (pos : String) (x y : ℤ), pollMatch pos x y = true ↔ pos = formatPosition x y) ∧
    (∀ (x y : ℤ) (reports : List String),
      pollWait x y false reports = true ↔ ∃ pos ∈ reports, pos = formatPosition x y) ∧
    (∀ (x y : ℤ) (reports : List String), pollWait x y true reports = false) ∧
    formatPosition 0 0 = "0, 0" ∧
    pollMatch "00, 0" 0 0 = false := by
  have hmatch : ∀ (pos : String) (x y : ℤ),
      pollMatch pos x y = true ↔ pos = formatPosition x y := by
    intro pos x y
    unfold pollMatch
    exact beq_iff_eq
  refine ⟨hmatch, ?_, ?_, by decide, by decide⟩
  · intro x y reports
    induction reports with
    | nil => simp [pollWait]
    | cons pos rest ih =>
      by_cases h : pollMatch pos x y = true
      · have hpos := (hmatch pos x y).mp h
        rw [pollWait, if_neg (by simp), if_pos h]
        exact ⟨fun _ => ⟨pos, List.mem_cons_self pos rest, hpos⟩, fun _ => rfl⟩
      · rw [pollWait, if_neg (by simp), if_neg h, ih]
        simp only [List.mem_cons]
        constructor
        · rintro ⟨p, hp, he⟩
          exact ⟨p, Or.inr hp, he⟩
        · rintro ⟨p, hp | hp, he⟩
          · exact absurd ((hmatch p x y).mpr he) (hp ▸ h)
          · exact ⟨p, hp, he⟩
  · intro x y reports
    cases reports with
    | nil => rfl
    | cons pos rest => simp [pollWait]

/-- Witness for C7: the exact formatted report for target (7, 9) matches. -/
theorem poll_exact_string_equality_witness :
    pollMatch "7, 9" 7 9 = true :=
  (poll_exact_string_equality.1 "7, 9" 7 9).mpr (by decide)

/-! ## Theorems about the snake traversal (claim C2) -/

/-- Congruence for flatMap over the same list. -/
theorem flatMap_congr_left {α β : Type} {l : List α} {f g : α → List β}
    (h : ∀ a ∈ l, f a = g a) : l.flatMap f = l.flatMap g := by
  induction l with
  | nil => rfl
  | cons a l ih =>
    rw [List.flatMap_cons, List.flatMap_cons, h a (List.mem_cons_self a l),
      ih fun b hb => h b (List.mem_cons_of_mem a hb)]

/-- Closed form of rowRest: the i-th emitted target has moved i+1 steps. -/
theorem rowRest_eq (y step : ℤ) (k : Nat) :
    ∀ aim : ℤ,
      rowRest aim y step k =
        ((List.range k).map fun (i : ℕ) => (aim + ((i : ℤ) + 1) * step, y),
          aim + (k : ℤ) * step) := by
  induction k with
  | zero => intro aim; simp [rowRest]
  | succ k ih =>
    intro aim
    simp only [rowRest]
    rw [ih (aim + step), List.range_succ_eq_map, List.map_cons, List.map_map]
    refine congrArg₂ Prod.mk (congrArg₂ List.cons ?_ ?_) ?_
    · norm_num
    · refine List.map_congr_left fun a _ => ?_
      simp only [Function.comp_apply]
      refine congrArg₂ Prod.mk ?_ rfl
      push_cast
      ring
    · push_cast
      ring

/-- Closed form of a full row: the i-th target has moved i steps from the
carried aim, and the carried aim after the row has moved n-1 steps. -/
theorem rowRun_eq (y step aim : ℤ) (n : Nat) :
    rowRun aim y step n =
      ((List.range n).map fun (i : ℕ) => (aim + (i : ℤ) * step, y),
        aim + ((n - 1 : ℕ) : ℤ) * step) := by
  cases n with
  | zero => simp [rowRun]
  | succ k =>
    simp only [rowRun]
    rw [rowRest_eq y step k aim, List.range_succ_eq_map, List.map_cons, List.map_map]
    refine congrArg₂ Prod.mk (congrArg₂ List.cons ?_ ?_) ?_
    · norm_num
    · refine List.map_congr_left fun a _ => ?_
      simp only [Function.comp_apply]
      refine congrArg₂ Prod.mk ?_ rfl
      push_cast
      ring
    · simp only [Nat.succ_sub_one]

/-- Closed form of the outer loop: given the row-start invariant on the
carried aim, the remaining k rows starting at absolute row index r produce
the boustrophedon targets. -/
theorem snakeAux_eq (sx xinc yinc : ℤ) (nx : Nat) (k : Nat) :
    ∀ (r : Nat) (ax ay : ℤ),
      ax = (if r % 2 = 0 then sx else sx + ((nx - 1 : ℕ) : ℤ) * xinc) →
      snakeAux xinc yinc nx k ax ay r =
        (List.range k).flatMap fun (j : ℕ) =>
          (List.range nx).map fun (i : ℕ) =>
            (if (r + j) % 2 = 0 then sx + (i : ℤ) * xinc
             else sx + ((nx - 1 : ℕ) : ℤ) * xinc - (i : ℤ) * xinc,
             ay + (j : ℤ) * yinc) := by
  induction k with
  | zero => intro r ax ay _; simp [snakeAux]
  | succ k ih =>
    intro r ax ay hax
    simp only [snakeAux]
    rw [List.range_succ_eq_map, List.flatMap_cons, List.flatMap_map]
    by_cases hr : r % 2 = 0
    · rw [if_pos hr] at hax ⊢
      subst hax
      rw [rowRun_eq]
      refine congrArg₂ List.append ?_ ?_
      · refine List.map_congr_left fun i _ => ?_
        rw [if_pos (by omega : (r + 0) % 2 = 0)]
        refine congrArg₂ Prod.mk rfl (by push_cast; ring)
      · rw [ih (r + 1) _ (ay + yinc) (by rw [if_neg (by omega : ¬(r + 1) % 2 = 0)])]
        refine flatMap_congr_left fun j _ => ?_
        refine List.map_congr_left fun i _ => ?_
        have hpar : (r + 1 + j) % 2 = (r + (j + 1)) % 2 := by omega
        rw [hpar]
        refine congrArg₂ Prod.mk rfl (by push_cast; ring)
    · rw [if_neg hr] at hax ⊢
      subst hax
      rw [rowRun_eq]
      refine congrArg₂ List.append ?_ ?_
      · refine List.map_congr_left fun i _ => ?_
        rw [if_neg (by omega : ¬(r + 0) % 2 = 0)]
        refine congrArg₂ Prod.mk (by ring) (by norm_num)
      · rw [show sx + ((nx - 1 : ℕ) : ℤ) * xinc + ((nx - 1 : ℕ) : ℤ) * -xinc = sx by ring]
        rw [ih (r + 1) _ (ay + yinc) (by rw [if_pos (by omega : (r + 1) % 2 = 0)])]
        refine flatMap_congr_left fun j _ => ?_
        refine List.map_congr_left fun i _ => ?_
        have hpar : (r + 1 + j) % 2 = (r + (j + 1)) % 2 := by omega
        rw [hpar]
        refine congrArg₂ Prod.mk rfl (by push_cast; ring)

/-- The generated target sequence equals the closed-form boustrophedon
list. -/
theorem snakePath_eq (sx sy xinc yinc : ℤ) (nx ny : Nat) :
    snakePath sx sy xinc yinc nx ny = snakeSpec sx sy xinc yinc nx ny := by
  unfold snakePath snakeSpec
  rw [snakeAux_eq sx xinc yinc nx ny 0 sx sy (by simp)]
  refine flatMap_congr_left fun j _ => ?_
  refine List.map_congr_left fun i _ => ?_
  unfold cellTarget
  rw [Nat.zero_add]

/-- Element lookup in a flatMap of constant-length blocks. -/
theorem flatMap_getElem_aux {α : Type} (L : Nat) :
    ∀ (m : Nat) (g : Nat → List α), (∀ j, (g j).length = L) →
      ∀ j i, j < m → i < L →
        ((List.range m).flatMap g)[j * L + i]? = (g j)[i]? := by
  intro m
  induction m with
  | zero => intro g hg j i hj hi; omega
  | succ m ih =>
    intro g hg j i hj hi
    rw [List.range_succ_eq_map, List.flatMap_cons, List.flatMap_map,
      List.getElem?_append]
    cases j with
    | zero =>
      rw [if_pos (by rw [hg 0]; omega)]
      simp only [Nat.zero_mul, Nat.zero_add]
    | succ s =>
      rw [if_neg (by rw [hg 0, Nat.succ_mul]; omega)]
      have hidx : (s + 1) * L + i - (g 0).length = s * L + i := by
        rw [hg 0, Nat.succ_mul]; omega
      rw [hidx]
      exact ih (fun a => g (a + 1)) (fun a => hg (a + 1)) s i (by omega) hi

/-- Element lookup in the closed-form snake list. -/
theorem snakeSpec_getElem (sx sy xinc yinc : ℤ) (nx ny : Nat) (j i : Nat)
    (hj : j < ny) (hi : i < nx) :
    (snakeSpec sx sy xinc yinc nx ny)[j * nx + i]? =
      some (cellTarget sx sy xinc yinc nx j i) := by
  unfold snakeSpec
  rw [flatMap_getElem_aux nx ny _ (fun _ => by simp) j i hj hi,
    List.getElem?_map, List.getElem?_range hi]
  rfl

/-- With nonzero increments, distinct grid cells map to distinct targets,
so the closed-form snake list has no duplicates. -/
theorem snakeSpec_nodup (sx sy xinc yinc : ℤ) (nx ny : Nat)
    (hx : xinc ≠ 0) (hy : yinc ≠ 0) :
    (snakeSpec sx sy xinc yinc nx ny).Nodup := by
  unfold snakeSpec
  rw [List.nodup_flatMap]
  constructor
  · intro j _
    refine List.Nodup.map ?_ (List.nodup_range nx)
    intro i1 i2 he
    have h1 := congrArg Prod.fst he
    unfold cellTarget at h1
    simp only at h1
    by_cases hjp : j % 2 = 0
    · rw [if_pos hjp, if_pos hjp] at h1
      have h2 : (i1 : ℤ) * xinc = (i2 : ℤ) * xinc := by linarith
      exact_mod_cast mul_right_cancel₀ hx h2
    · rw [if_neg hjp, if_neg hjp] at h1
      have h2 : (i1 : ℤ) * xinc = (i2 : ℤ) * xinc := by linarith
      exact_mod_cast mul_right_cancel₀ hx h2
  · refine (List.pairwise_lt_range ny).imp ?_
    intro a b hab p hpa hpb
    obtain ⟨i1, _, rfl⟩ := List.mem_map.mp hpa
    obtain ⟨i2, _, he⟩ := List.mem_map.mp hpb
    have h2 := congrArg Prod.snd he
    unfold cellTarget at h2
    simp only at h2
    have h3 : (b : ℤ) * yinc = (a : ℤ) * yinc := by linarith
    have h4 : (b : ℤ) = a := mul_right_cancel₀ hy h3
    have : b = a := by exact_mod_cast h4
    omega

/-- Every grid-cell target occurs in the closed-form snake list. -/
theorem cellTarget_mem (sx sy xinc yinc : ℤ) (nx ny : Nat) (j i : Nat)
    (hj : j < ny) (hi : i < nx) :
    cellTarget sx sy xinc yinc nx j i ∈ snakeSpec sx sy xinc yinc nx ny := by
  unfold snakeSpec
  rw [List.mem_flatMap]
  exact ⟨j, List.mem_range.mpr hj,
    List.mem_map_of_mem _ (List.mem_range.mpr hi)⟩

/-- Length of the closed-form snake list. -/
theorem snakeSpec_length (sx sy xinc yinc : ℤ) (nx ny : Nat) :
    (snakeSpec sx sy xinc yinc nx ny).length = nx * ny := by
  unfold snakeSpec
  rw [List.length_flatMap]
  rw [show (List.length ∘ fun j => (List.range nx).map (cellTarget sx sy xinc yinc nx j))
      = Function.const ℕ nx from funext fun j => by simp [Function.const]]
  rw [List.map_const, List.length_range, List.sum_replicate, smul_eq_mul]
  exact Nat.mul_comm ny nx

/-- Count of an element of a duplicate-free list. -/
theorem count_eq_one_of_nodup_of_mem {α : Type} [BEq α] [LawfulBEq α]
    {a : α} {l : List α} (d : l.Nodup) (h : a ∈ l) : l.count a = 1 := by
  induction l with
  | nil => cases h
  | cons b t ih =>
    rw [List.count_cons]
    rcases List.nodup_cons.mp d with ⟨hb, ht⟩
    rcases List.mem_cons.mp h with rfl | hmem
    · rw [if_pos (by simp), List.count_eq_zero.mpr hb]
    · have hne : b ≠ a := by rintro rfl; exact hb hmem
      rw [if_neg (by simp [hne]), ih ht hmem]

/-- C2: for a grid of nx columns and ny rows (both at least 1) with positive
increments, the generated target sequence is exactly the boustrophedon
closed form: it has nx·ny entries; the entry for column i of row j sits at
position j·nx + i and equals (sx + i·x_inc, sy + j·y_inc) on even rows and
(sx + (nx-1)·x_inc - i·x_inc, sy + j·y_inc) on odd rows, so x grows by x_inc
along even rows, shrinks by x_inc along odd rows, y grows by y_inc exactly
once per row change, the direction alternates exactly at row boundaries, and
every one of the nx·ny grid cells is visited exactly once. -/
theorem snake_traversal_order_and_coverage (sx sy xinc yinc : ℤ) (nx ny : Nat)
    (_hnx : 1 ≤ nx) (_hny : 1 ≤ ny) (hx : 0 < xinc) (hy : 0 < yinc) :
    snakePath sx sy xinc yinc nx ny = snakeSpec sx sy xinc yinc nx ny ∧
    (snakePath sx sy xinc yinc nx ny).length = nx * ny ∧
    (∀ j i, j < ny → i < nx →
      (snakePath sx sy xinc yinc nx ny)[j * nx + i]? =
        some (cellTarget sx sy xinc yinc nx j i)) ∧
    (∀ j i, j < ny → i < nx →
      (snakePath sx sy xinc yinc nx ny).count (cellTarget sx sy xinc yinc nx j i) = 1) := by
  have heq := snakePath_eq sx sy xinc yinc nx ny
  refine ⟨heq, ?_, ?_, ?_⟩
  · rw [heq]; exact snakeSpec_length sx sy xinc yinc nx ny
  · intro j i hj hi
    rw [heq]; exact snakeSpec_getElem sx sy xinc yinc nx ny j i hj hi
  · intro j i hj hi
    rw [heq]
    exact count_eq_one_of_nodup_of_mem
      (snakeSpec_nodup sx sy xinc yinc nx ny (ne_of_gt hx) (ne_of_gt hy))
      (cellTarget_mem sx sy xinc yinc nx ny j i hj hi)

/-- Witness for C2 at the concrete 3-column, 2-row grid starting at the
origin with increments 10 and 20. -/
theorem snake_traversal_witness :
    (1 ≤ 3 ∧ 1 ≤ 2 ∧ (0 : ℤ) < 10 ∧ (0 : ℤ) < 20) ∧
    (snakePath 0 0 10 20 3 2 = snakeSpec 0 0 10 20 3 2 ∧
      (snakePath 0 0 10 20 3 2).length = 3 * 2 ∧
      (∀ j i, j < 2 → i < 3 →
        (snakePath 0 0 10 20 3 2)[j * 3 + i]? = some (cellTarget 0 0 10 20 3 j i)) ∧
      (∀ j i, j < 2 → i < 3 →
        (snakePath 0 0 10 20 3 2).count (cellTarget 0 0 10 20 3 j i) = 1)) :=
  ⟨⟨by norm_num, by norm_num, by norm_num, by norm_num⟩,
    snake_traversal_order_and_coverage 0 0 10 20 3 2
      (by norm_num) (by norm_num) (by norm_num) (by norm_num)⟩

/-! ## Theorems about the imaging sequencer (claims C3, C8, C9) -/

/-- Characterization of the main loop when the stop flag is never set
externally: the issued events are a move and a capture for exactly the
longest prefix of targets within the limits, and the stop flag ends true
exactly when some generated target violates a limit. -/
theorem runStop_no_stop (xlim ylim : ℤ) (t : Nat) :
    ∀ (cells : List (ℤ × ℤ)) (ctr : Nat), 2 * cells.length + ctr + 1 ≤ t →
      (runStop xlim ylim t cells ctr).1 =
        (cells.takeWhile fun c => !exceedsLimits xlim ylim c).flatMap
          (fun c => [GEvent.move c.1 c.2, GEvent.capture]) ∧
      ((runStop xlim ylim t cells ctr).2 = true ↔
        ∃ c ∈ cells, exceedsLimits xlim ylim c = true) := by
  intro cells
  induction cells with
  | nil =>
    intro ctr ht
    simp only [List.length_nil] at ht
    refine ⟨rfl, ?_⟩
    show decide (t ≤ ctr) = true ↔ _
    rw [decide_eq_true_eq]
    constructor
    · intro h; omega
    · rintro ⟨c, hc, -⟩; exact absurd hc (List.not_mem_nil c)
  | cons c rest ih =>
    intro ctr ht
    simp only [List.length_cons] at ht
    have h1 : ¬ t ≤ ctr := by omega
    have h2 : ¬ t ≤ ctr + 1 := by omega
    by_cases hex : exceedsLimits xlim ylim c = true
    · have heq : runStop xlim ylim t (c :: rest) ctr = ([], true) := by
        rw [runStop, if_neg h1, if_pos hex]
      rw [heq, List.takeWhile_cons, if_neg (by simp [hex])]
      refine ⟨rfl, ?_⟩
      exact ⟨fun _ => ⟨c, List.mem_cons_self c rest, hex⟩, fun _ => rfl⟩
    · have heq : runStop xlim ylim t (c :: rest) ctr =
          (GEvent.move c.1 c.2 :: GEvent.capture :: (runStop xlim ylim t rest (ctr + 2)).1,
            (runStop xlim ylim t rest (ctr + 2)).2) := by
        rw [runStop, if_neg h1, if_neg hex, if_neg h2]
      obtain ⟨ih1, ih2⟩ := ih (ctr + 2) (by omega)
      rw [heq, List.takeWhile_cons, if_pos (by simp [hex])]
      constructor
      · rw [List.flatMap_cons, ih1]
        rfl
      · rw [show (GEvent.move c.1 c.2 :: GEvent.capture :: (runStop xlim ylim t rest (ctr + 2)).1,
            (runStop xlim ylim t rest (ctr + 2)).2).2 = (runStop xlim ylim t rest (ctr + 2)).2
          from rfl, ih2]
        constructor
        · rintro ⟨d, hd, he⟩; exact ⟨d, List.mem_cons_of_mem c hd, he⟩
        · rintro ⟨d, hd, he⟩
          rcases List.mem_cons.mp hd with rfl | hd'
          · exact absurd he hex
          · exact ⟨d, hd', he⟩

/-- C3: with no external stop request, the imaging loop issues moves and
captures for exactly the longest prefix of generated targets that lie
within both limits; the stop flag ends set exactly when some generated
target exceeds a limit (the sequence aborts there, before issuing that
move, and nothing is issued afterwards); in particular every issued move
command has x at most x_limit and y at most y_limit. -/
theorem limit_violation_aborts_before_move (sx sy xinc yinc xlim ylim : ℤ)
    (nx ny : Nat) (t : Nat)
    (ht : 2 * (snakePath sx sy xinc yinc nx ny).length + 2 ≤ t) :
    (runStop xlim ylim t (snakePath sx sy xinc yinc nx ny) 1).1 =
      ((snakePath sx sy xinc yinc nx ny).takeWhile
          fun c => !exceedsLimits xlim ylim c).flatMap
        (fun c => [GEvent.move c.1 c.2, GEvent.capture]) ∧
    ((runStop xlim ylim t (snakePath sx sy xinc yinc nx ny) 1).2 = true ↔
      ∃ c ∈ snakePath sx sy xinc yinc nx ny, exceedsLimits xlim ylim c = true) ∧
    (∀ x y : ℤ,
      GEvent.move x y ∈ (runStop xlim ylim t (snakePath sx sy xinc yinc nx ny) 1).1 →
      x ≤ xlim ∧ y ≤ ylim) := by
  obtain ⟨h1, h2⟩ :=
    runStop_no_stop xlim ylim t (snakePath sx sy xinc yinc nx ny) 1 (by omega)
  refine ⟨h1, h2, ?_⟩
  intro x y hmem
  rw [h1, List.mem_flatMap] at hmem
  obtain ⟨c, hc, hm⟩ := hmem
  have hcx : exceedsLimits xlim ylim c = false := by
    have := List.mem_takeWhile_imp hc
    simpa using this
  unfold exceedsLimits at hcx
  simp only [Bool.or_eq_false_iff, decide_eq_false_iff_not, not_lt] at hcx
  simp only [List.mem_cons, List.not_mem_nil, or_false] at hm
  rcases hm with hm | hm
  · cases hm
    exact hcx
  · exact absurd hm (by simp)

/-- Witness for C3 on the concrete 3 × 1 grid from the origin with
increment 60 and limits 100, whose third target (120, 0) violates the x
limit: only the first two cells are moved to and captured. -/
theorem limit_violation_witness :
    (2 * (snakePath 0 0 60 60 3 1).length + 2 ≤ 8) ∧
    ((runStop 100 100 8 (snakePath 0 0 60 60 3 1) 1).1 =
      ((snakePath 0 0 60 60 3 1).takeWhile fun c => !exceedsLimits 100 100 c).flatMap
        (fun c => [GEvent.move c.1 c.2, GEvent.capture]) ∧
    ((runStop 100 100 8 (snakePath 0 0 60 60 3 1) 1).2 = true ↔
      ∃ c ∈ snakePath 0 0 60 60 3 1, exceedsLimits 100 100 c = true) ∧
    (∀ x y : ℤ, GEvent.move x y ∈ (runStop 100 100 8 (snakePath 0 0 60 60 3 1) 1).1 →
      x ≤ 100 ∧ y ≤ 100)) :=
  ⟨by decide, limit_violation_aborts_before_move 0 0 60 60 100 100 3 1 8 (by decide)⟩

/-- When every target is within the limits and the stop flag turns true at
flag read t, a read the loop still reaches, the run ends with the flag set
and at most t - ctr events are issued after read ctr. -/
theorem runStop_stopped (xlim ylim : ℤ) (t : Nat) :
    ∀ (cells : List (ℤ × ℤ)) (ctr : Nat),
      (∀ c ∈ cells, exceedsLimits xlim ylim c = false) →
      ctr ≤ t → t ≤ ctr + 2 * cells.length →
      (runStop xlim ylim t cells ctr).2 = true ∧
      (runStop xlim ylim t cells ctr).1.length + ctr ≤ t := by
  intro cells
  induction cells with
  | nil =>
    intro ctr _ hctr ht
    simp only [List.length_nil, Nat.mul_zero, Nat.add_zero] at ht
    refine ⟨?_, ?_⟩
    · show decide (t ≤ ctr) = true
      rw [decide_eq_true_eq]
      omega
    · show (0 : ℕ) + ctr ≤ t
      omega
  | cons c rest ih =>
    intro ctr hall hctr ht
    simp only [List.length_cons] at ht
    have hex : exceedsLimits xlim ylim c = false := hall c (List.mem_cons_self c rest)
    by_cases h1 : t ≤ ctr
    · have heq : runStop xlim ylim t (c :: rest) ctr = ([], true) := by
        rw [runStop, if_pos h1]
      rw [heq]
      exact ⟨rfl, by simpa using hctr⟩
    · by_cases h2 : t ≤ ctr + 1
      · have heq : runStop xlim ylim t (c :: rest) ctr = ([GEvent.move c.1 c.2], true) := by
          rw [runStop, if_neg h1, if_neg (by simp [hex]), if_pos h2]
        rw [heq]
        refine ⟨rfl, ?_⟩
        show (1 : ℕ) + ctr ≤ t
        omega
      · have heq : runStop xlim ylim t (c :: rest) ctr =
            (GEvent.move c.1 c.2 :: GEvent.capture :: (runStop xlim ylim t rest (ctr + 2)).1,
              (runStop xlim ylim t rest (ctr + 2)).2) := by
          rw [runStop, if_neg h1, if_neg (by simp [hex]), if_neg h2]
        rw [heq]
        obtain ⟨ih1, ih2⟩ := ih (ctr + 2)
          (fun d hd => hall d (List.mem_cons_of_mem c hd)) (by omega) (by omega)
        refine ⟨ih1, ?_⟩
        show (runStop xlim ylim t rest (ctr + 2)).1.length + 1 + 1 + ctr ≤ t
        omega

/-- The events of a run cancelled at read t are an initial segment of the
events of the same run with the flag set only at read t2, far beyond the
final read. -/
theorem runStop_prefix (xlim ylim : ℤ) (t t2 : Nat) :
    ∀ (cells : List (ℤ × ℤ)) (ctr : Nat), 2 * cells.length + ctr + 1 ≤ t2 →
      ∃ rest, (runStop xlim ylim t2 cells ctr).1 = (runStop xlim ylim t cells ctr).1 ++ rest := by
  intro cells
  induction cells with
  | nil =>
    intro ctr _
    exact ⟨[], rfl⟩
  | cons c rest ih =>
    intro ctr ht
    simp only [List.length_cons] at ht
    have h1 : ¬ t2 ≤ ctr := by omega
    have h2 : ¬ t2 ≤ ctr + 1 := by omega
    by_cases hex : exceedsLimits xlim ylim c = true
    · have heqB : runStop xlim ylim t2 (c :: rest) ctr = ([], true) := by
        rw [runStop, if_neg h1, if_pos hex]
      by_cases ht1 : t ≤ ctr
      · have heqT : runStop xlim ylim t (c :: rest) ctr = ([], true) := by
          rw [runStop, if_pos ht1]
        exact ⟨[], by rw [heqB, heqT]; rfl⟩
      · have heqT : runStop xlim ylim t (c :: rest) ctr = ([], true) := by
          rw [runStop, if_neg ht1, if_pos hex]
        exact ⟨[], by rw [heqB, heqT]; rfl⟩
    · have heqB : runStop xlim ylim t2 (c :: rest) ctr =
          (GEvent.move c.1 c.2 :: GEvent.capture :: (runStop xlim ylim t2 rest (ctr + 2)).1,
            (runStop xlim ylim t2 rest (ctr + 2)).2) := by
        rw [runStop, if_neg h1, if_neg hex, if_neg h2]
      by_cases ht1 : t ≤ ctr
      · have heqT : runStop xlim ylim t (c :: rest) ctr = ([], true) := by
          rw [runStop, if_pos ht1]
        exact ⟨GEvent.move c.1 c.2 :: GEvent.capture :: (runStop xlim ylim t2 rest (ctr + 2)).1,
          by rw [heqB, heqT]; rfl⟩
      · by_cases ht2 : t ≤ ctr + 1
        · have heqT : runStop xlim ylim t (c :: rest) ctr = ([GEvent.move c.1 c.2], true) := by
            rw [runStop, if_neg ht1, if_neg hex, if_pos ht2]
          exact ⟨GEvent.capture :: (runStop xlim ylim t2 rest (ctr + 2)).1,
            by rw [heqB, heqT]; rfl⟩
        · have heqT : runStop xlim ylim t (c :: rest) ctr =
              (GEvent.move c.1 c.2 :: GEvent.capture :: (runStop xlim ylim t rest (ctr + 2)).1,
                (runStop xlim ylim t rest (ctr + 2)).2) := by
            rw [runStop, if_neg ht1, if_neg hex, if_neg ht2]
          obtain ⟨tail, htail⟩ := ih (ctr + 2) (by omega)
          refine ⟨tail, ?_⟩
          rw [heqB, heqT]
          show GEvent.move c.1 c.2 :: GEvent.capture :: (runStop xlim ylim t2 rest (ctr + 2)).1 =
            (GEvent.move c.1 c.2 :: GEvent.capture :: (runStop xlim ylim t rest (ctr + 2)).1) ++ tail
          rw [List.cons_append, List.cons_append, htail]

/-- C8: cancellation is cooperative through the shared stop_imaging flag.
If every generated target is within the limits and the flag turns true at
flag read t (a read the main loop reaches, 1 ≤ t ≤ 2·number of targets),
then the thread reports the stopped status, the total number of commands it
ever issued (including the initial move to the start position) is at most t,
and those commands are an initial segment of the commands of an uncancelled
run: after its next flag read the sequencer issues no further move and no
further capture. -/
theorem cooperative_stop_flag (sx sy xinc yinc xlim ylim : ℤ) (nx ny : Nat) (t : Nat)
    (hall : ∀ c ∈ snakePath sx sy xinc yinc nx ny, exceedsLimits xlim ylim c = false)
    (ht1 : 1 ≤ t)
    (ht2 : t ≤ 2 * (snakePath sx sy xinc yinc nx ny).length) :
    (imagingThread sx sy xinc yinc nx ny xlim ylim t).status = "Imaging sequence stopped" ∧
    (imagingThread sx sy xinc yinc nx ny xlim ylim t).events.length ≤ t ∧
    ∃ rest,
      (imagingThread sx sy xinc yinc nx ny xlim ylim
          (2 * (snakePath sx sy xinc yinc nx ny).length + 2)).events =
        (imagingThread sx sy xinc yinc nx ny xlim ylim t).events ++ rest := by
  obtain ⟨hstop, hlen⟩ :=
    runStop_stopped xlim ylim t (snakePath sx sy xinc yinc nx ny) 1 hall (by omega) (by omega)
  unfold imagingThread
  rw [if_neg (by omega : ¬ t = 0), if_neg (by omega : ¬ 2 * (snakePath sx sy xinc yinc nx ny).length + 2 = 0)]
  refine ⟨?_, ?_, ?_⟩
  · show (if (runStop xlim ylim t (snakePath sx sy xinc yinc nx ny) 1).2 = true
        then "Imaging sequence stopped" else _) = "Imaging sequence stopped"
    rw [if_pos hstop]
  · show (GEvent.move sx sy :: (runStop xlim ylim t (snakePath sx sy xinc yinc nx ny) 1).1).length ≤ t
    rw [List.length_cons]
    omega
  · obtain ⟨rest, hres⟩ :=
      runStop_prefix xlim ylim t (2 * (snakePath sx sy xinc yinc nx ny).length + 2)
        (snakePath sx sy xinc yinc nx ny) 1 (by omega)
    refine ⟨rest, ?_⟩
    show GEvent.move sx sy :: (runStop xlim ylim (2 * (snakePath sx sy xinc yinc nx ny).length + 2)
        (snakePath sx sy xinc yinc nx ny) 1).1 =
      (GEvent.move sx sy :: (runStop xlim ylim t (snakePath sx sy xinc yinc nx ny) 1).1) ++ rest
    rw [List.cons_append, hres]

/-- Witness for C8 on the concrete 2 × 2 grid from the origin with unit
increments, limits 10, and the stop flag turning true at flag read 2. -/
theorem cooperative_stop_flag_witness :
    ((∀ c ∈ snakePath 0 0 1 1 2 2, exceedsLimits 10 10 c = false) ∧
      1 ≤ 2 ∧ 2 ≤ 2 * (snakePath 0 0 1 1 2 2).length) ∧
    ((imagingThread 0 0 1 1 2 2 10 10 2).status = "Imaging sequence stopped" ∧
      (imagingThread 0 0 1 1 2 2 10 10 2).events.length ≤ 2 ∧
      ∃ rest,
        (imagingThread 0 0 1 1 2 2 10 10 (2 * (snakePath 0 0 1 1 2 2).length + 2)).events =
          (imagingThread 0 0 1 1 2 2 10 10 2).events ++ rest) :=
  ⟨⟨by decide, by decide, by decide⟩,
    cooperative_stop_flag 0 0 1 1 10 10 2 2 2 (by decide) (by decide) (by decide)⟩

/-- When every target is within the limits and hardware call failAt, a call
the loop reaches, raises, the run ends raised and the number of events
issued after call k is exactly failAt - k: every call before the failing
one issued its command once, the failing call issued nothing, and nothing
runs afterwards. -/
theorem runExc_raised (xlim ylim : ℤ) (failAt : Nat) :
    ∀ (cells : List (ℤ × ℤ)) (k : Nat),
      (∀ c ∈ cells, exceedsLimits xlim ylim c = false) →
      k ≤ failAt → failAt < k + 2 * cells.length →
      (runExc xlim ylim failAt cells k).2 = RunResult.raised ∧
      (runExc xlim ylim failAt cells k).1.length + k = failAt := by
  intro cells
  induction cells with
  | nil =>
    intro k _ h1 h2
    simp only [List.length_nil, Nat.mul_zero, Nat.add_zero] at h2
    omega
  | cons c rest ih =>
    intro k hall h1 h2
    simp only [List.length_cons] at h2
    have hex : exceedsLimits xlim ylim c = false := hall c (List.mem_cons_self c rest)
    by_cases hk : k = failAt
    · have heq : runExc xlim ylim failAt (c :: rest) k = ([], RunResult.raised) := by
        rw [runExc, if_neg (by simp [hex]), if_pos hk]
      rw [heq]
      exact ⟨rfl, by simpa using hk⟩
    · by_cases hk1 : k + 1 = failAt
      · have heq : runExc xlim ylim failAt (c :: rest) k =
            ([GEvent.move c.1 c.2], RunResult.raised) := by
          rw [runExc, if_neg (by simp [hex]), if_neg hk, if_pos hk1]
        rw [heq]
        refine ⟨rfl, ?_⟩
        show (1 : ℕ) + k = failAt
        omega
      · have heq : runExc xlim ylim failAt (c :: rest) k =
            (GEvent.move c.1 c.2 :: GEvent.capture :: (runExc xlim ylim failAt rest (k + 2)).1,
              (runExc xlim ylim failAt rest (k + 2)).2) := by
          rw [runExc, if_neg (by simp [hex]), if_neg hk, if_neg hk1]
        rw [heq]
        obtain ⟨ih1, ih2⟩ := ih (k + 2)
          (fun d hd => hall d (List.mem_cons_of_mem c hd)) (by omega) (by omega)
        refine ⟨ih1, ?_⟩
        show (runExc xlim ylim failAt rest (k + 2)).1.length + 1 + 1 + k = failAt
        omega

/-- The events of a run whose call failAt raises are an initial segment of
the events of the same run with the failing call moved beyond the last
call. -/
theorem runExc_prefix (xlim ylim : ℤ) (failAt bigF : Nat) :
    ∀ (cells : List (ℤ × ℤ)) (k : Nat), k + 2 * cells.length ≤ bigF →
      ∃ rest, (runExc xlim ylim bigF cells k).1 = (runExc xlim ylim failAt cells k).1 ++ rest := by
  intro cells
  induction cells with
  | nil =>
    intro k _
    exact ⟨[], rfl⟩
  | cons c rest ih =>
    intro k hbig
    simp only [List.length_cons] at hbig
    have hb1 : ¬ k = bigF := by omega
    have hb2 : ¬ k + 1 = bigF := by omega
    by_cases hex : exceedsLimits xlim ylim c = true
    · have heqB : runExc xlim ylim bigF (c :: rest) k = ([], RunResult.stopped) := by
        rw [runExc, if_pos hex]
      have heqT : runExc xlim ylim failAt (c :: rest) k = ([], RunResult.stopped) := by
        rw [runExc, if_pos hex]
      exact ⟨[], by rw [heqB, heqT]; rfl⟩
    · have hexf : exceedsLimits xlim ylim c = false := by
        simpa using hex
      have heqB : runExc xlim ylim bigF (c :: rest) k =
          (GEvent.move c.1 c.2 :: GEvent.capture :: (runExc xlim ylim bigF rest (k + 2)).1,
            (runExc xlim ylim bigF rest (k + 2)).2) := by
        rw [runExc, if_neg (by simp [hexf]), if_neg hb1, if_neg hb2]
      by_cases hk : k = failAt
      · have heqT : runExc xlim ylim failAt (c :: rest) k = ([], RunResult.raised) := by
          rw [runExc, if_neg (by simp [hexf]), if_pos hk]
        exact ⟨GEvent.move c.1 c.2 :: GEvent.capture :: (runExc xlim ylim bigF rest (k + 2)).1,
          by rw [heqB, heqT]; rfl⟩
      · by_cases hk1 : k + 1 = failAt
        · have heqT : runExc xlim ylim failAt (c :: rest) k =
              ([GEvent.move c.1 c.2], RunResult.raised) := by
            rw [runExc, if_neg (by simp [hexf]), if_neg hk, if_pos hk1]
          exact ⟨GEvent.capture :: (runExc xlim ylim bigF rest (k + 2)).1,
            by rw [heqB, heqT]; rfl⟩
        · have heqT : runExc xlim ylim failAt (c :: rest) k =
              (GEvent.move c.1 c.2 :: GEvent.capture :: (runExc xlim ylim failAt rest (k + 2)).1,
                (runExc xlim ylim failAt rest (k + 2)).2) := by
            rw [runExc, if_neg (by simp [hexf]), if_neg hk, if_neg hk1]
          obtain ⟨tail, htail⟩ := ih (k + 2) (by omega)
          refine ⟨tail, ?_⟩
          rw [heqB, heqT]
          show GEvent.move c.1 c.2 :: GEvent.capture :: (runExc xlim ylim bigF rest (k + 2)).1 =
            (GEvent.move c.1 c.2 :: GEvent.capture :: (runExc xlim ylim failAt rest (k + 2)).1) ++ tail
          rw [List.cons_append, List.cons_append, htail]

/-- C9: when every generated target is within the limits and hardware call
number failAt of the imaging thread raises an exception with text msg, the
broad except handler catches it: the final status is the error message
containing the exception text, the is_imaging flag is cleared, the number of
commands issued is exactly failAt (each call before the failing one ran
once, the failing call and everything after it ran zero times), and those
commands are an initial segment of the commands of an exception-free run:
the failed operation is never retried. -/
theorem exceptions_caught_no_retry (sx sy xinc yinc xlim ylim : ℤ) (nx ny : Nat)
    (failAt : Nat) (msg : String)
    (hall : ∀ c ∈ snakePath sx sy xinc yinc nx ny, exceedsLimits xlim ylim c = false)
    (hf : failAt ≤ 2 * (snakePath sx sy xinc yinc nx ny).length) :
    (imagingThreadExc sx sy xinc yinc nx ny xlim ylim failAt msg).status =
      "Imaging error: " ++ msg ∧
    (imagingThreadExc sx sy xinc yinc nx ny xlim ylim failAt msg).is_imaging = false ∧
    (imagingThreadExc sx sy xinc yinc nx ny xlim ylim failAt msg).events.length = failAt ∧
    ∃ rest,
      (imagingThreadExc sx sy xinc yinc nx ny xlim ylim
          (2 * (snakePath sx sy xinc yinc nx ny).length + 1) msg).events =
        (imagingThreadExc sx sy xinc yinc nx ny xlim ylim failAt msg).events ++ rest := by
  have hbigevents :
      (imagingThreadExc sx sy xinc yinc nx ny xlim ylim
          (2 * (snakePath sx sy xinc yinc nx ny).length + 1) msg).events =
        GEvent.move sx sy ::
          (runExc xlim ylim (2 * (snakePath sx sy xinc yinc nx ny).length + 1)
            (snakePath sx sy xinc yinc nx ny) 1).1 := by
    unfold imagingThreadExc
    rw [if_neg (by omega : ¬ 2 * (snakePath sx sy xinc yinc nx ny).length + 1 = 0)]
    rcases hr : (runExc xlim ylim (2 * (snakePath sx sy xinc yinc nx ny).length + 1)
        (snakePath sx sy xinc yinc nx ny) 1).2 with - | - | - <;> simp [hr]
  by_cases h0 : failAt = 0
  · subst h0
    have heq0 : imagingThreadExc sx sy xinc yinc nx ny xlim ylim 0 msg =
        ⟨[], "Imaging error: " ++ msg, false⟩ := by
      unfold imagingThreadExc
      rw [if_pos rfl]
    rw [heq0, hbigevents]
    exact ⟨rfl, rfl, rfl, ⟨_, rfl⟩⟩
  · obtain ⟨hres, hlen⟩ :=
      runExc_raised xlim ylim failAt (snakePath sx sy xinc yinc nx ny) 1 hall
        (by omega) (by omega)
    have heqE : imagingThreadExc sx sy xinc yinc nx ny xlim ylim failAt msg =
        ⟨GEvent.move sx sy :: (runExc xlim ylim failAt (snakePath sx sy xinc yinc nx ny) 1).1,
          "Imaging error: " ++ msg, false⟩ := by
      unfold imagingThreadExc
      rw [if_neg h0]
      rw [show (match (runExc xlim ylim failAt (snakePath sx sy xinc yinc nx ny) 1).2 with
          | RunResult.raised =>
            (⟨GEvent.move sx sy :: (runExc xlim ylim failAt (snakePath sx sy xinc yinc nx ny) 1).1,
              "Imaging error: " ++ msg, false⟩ : ThreadOutcome)
          | RunResult.stopped =>
            ⟨GEvent.move sx sy :: (runExc xlim ylim failAt (snakePath sx sy xinc yinc nx ny) 1).1,
              "Imaging sequence stopped", false⟩
          | RunResult.completed =>
            ⟨GEvent.move sx sy :: (runExc xlim ylim failAt (snakePath sx sy xinc yinc nx ny) 1).1,
              "Imaging sequence complete - "
                ++ toString ((runExc xlim ylim failAt (snakePath sx sy xinc yinc nx ny) 1).1.countP
                    fun e => decide (e = GEvent.capture))
                ++ " positions captured", false⟩) =
          (⟨GEvent.move sx sy :: (runExc xlim ylim failAt (snakePath sx sy xinc yinc nx ny) 1).1,
            "Imaging error: " ++ msg, false⟩ : ThreadOutcome) by rw [hres]]
    rw [heqE, hbigevents]
    refine ⟨rfl, rfl, ?_, ?_⟩
    · show (GEvent.move sx sy ::
          (runExc xlim ylim failAt (snakePath sx sy xinc yinc nx ny) 1).1).length = failAt
      rw [List.length_cons]
      omega
    · obtain ⟨rest, hres2⟩ :=
        runExc_prefix xlim ylim failAt (2 * (snakePath sx sy xinc yinc nx ny).length + 1)
          (snakePath sx sy xinc yinc nx ny) 1 (by omega)
      refine ⟨rest, ?_⟩
      rw [List.cons_append, hres2]

/-- Witness for C9 on the concrete 2 × 1 grid from the origin with unit
increments, limits 10, where hardware call 2 (the capture at the first
cell) raises with text boom. -/
theorem exceptions_caught_no_retry_witness :
    ((∀ c ∈ snakePath 0 0 1 1 2 1, exceedsLimits 10 10 c = false) ∧
      2 ≤ 2 * (snakePath 0 0 1 1 2 1).length) ∧
    ((imagingThreadExc 0 0 1 1 2 1 10 10 2 "boom").status = "Imaging error: " ++ "boom" ∧
      (imagingThreadExc 0 0 1 1 2 1 10 10 2 "boom").is_imaging = false ∧
      (imagingThreadExc 0 0 1 1 2 1 10 10 2 "boom").events.length = 2 ∧
      ∃ rest,
        (imagingThreadExc 0 0 1 1 2 1 10 10
            (2 * (snakePath 0 0 1 1 2 1).length + 1) "boom").events =
          (imagingThreadExc 0 0 1 1 2 1 10 10 2 "boom").events ++ rest) :=
  ⟨⟨by decide, by decide⟩,
    exceptions_caught_no_retry 0 0 1 1 10 10 2 1 2 "boom" (by decide) (by decide)⟩
